import Mathlib

/-!
Verification of the snapshot-service-api core (src/cmd/main.go).

The four HTTP handlers of the Go program are embedded as pure Lean
functions.  The object-store collaborator (AWS S3) is modelled by its
responses: a listing is a list of objects (or pages of objects), a
presign call is a function from key and expiry to a result, and a
GetObject call is a function from key to a result.  Each handler is
translated statement by statement from the Go source; the presign
requests a handler issues are returned alongside the HTTP response so
that theorems can speak about which requests were made.

Go strings are byte strings compared byte-wise; Lean strings are
codepoint lists.  For valid UTF-8, lexicographic order on codepoints
coincides with lexicographic order on the UTF-8 bytes, and substring
occurrence of a valid UTF-8 needle in a valid UTF-8 haystack coincides
at the codepoint level, so String together with codepoint-level
comparison is a faithful model of Go string comparison and
strings.Contains.
-/

namespace SnapshotService

/-- One entry of an S3 listing response (s3.Object): key, size and
last-modified timestamp (modelled as an opaque integer). -/
structure S3Object where
  key : String
  size : Int
  lastModified : Int
deriving DecidableEq, Repr

/-- A presign request issued by a handler: the object key and the
requested expiry in nanoseconds (Go time.Duration). -/
structure PresignReq where
  key : String
  durNs : Nat
deriving DecidableEq, Repr

/-- Go: 15 * time.Minute, in nanoseconds. -/
def presignExpiryNs : Nat := 15 * 60 * 1000000000

/-- The presign collaborator: req.Presign(d) either yields a URL or an
error. -/
def PresignFn : Type := String → Nat → Except String String

/-- Byte-wise lexicographic strict order on codepoint sequences,
mirroring Go's < / > on strings. -/
def byteLt : List Nat → List Nat → Bool
  | _, [] => false
  | [], _ :: _ => true
  | a :: as, b :: bs => if a = b then byteLt as bs else decide (a < b)

/-- Go string comparison a < b (byte-wise lexicographic). -/
def goStrLt (a b : String) : Bool :=
  byteLt (a.data.map Char.toNat) (b.data.map Char.toNat)

/-- Is the first list a prefix of the second (element-wise)? -/
def listIsPfxOf : List Char → List Char → Bool
  | [], _ => true
  | _ :: _, [] => false
  | a :: as, b :: bs => a = b && listIsPfxOf as bs

/-- Does the haystack contain the needle as a contiguous sublist? -/
def containsAux (sub : List Char) : List Char → Bool
  | [] => sub.isEmpty
  | c :: t => listIsPfxOf sub (c :: t) || containsAux sub t

/-- Go strings.Contains(s, sub). -/
def goContains (s sub : String) : Bool := containsAux sub.data s.data

/-- Go strings.HasPrefix-style check: does s start with pfx?  (Used to
state the S3 contract that a listing with a Prefix parameter only
returns keys starting with that value.) -/
def goHasPfx (s pfx : String) : Bool := listIsPfxOf pfx.data s.data

/-- Go strings.Split(s, "/"): split a codepoint list at a separator,
keeping empty segments. -/
def splitOnChar (sep : Char) : List Char → List (List Char)
  | [] => [[]]
  | c :: rest =>
    let r := splitOnChar sep rest
    if c = sep then [] :: r
    else
      match r with
      | [] => [[c]]
      | g :: gs => (c :: g) :: gs

/-- Go strings.Split(key, "/"). -/
def goSplitSlash (s : String) : List String :=
  (splitOnChar '/' s.data).map (fun cs => String.mk cs)

/-! ### listFiles (GET /files/:protocol/:network) -/

/-- One element of the listFiles response array. -/
structure FileEntry where
  lastModified : Int
  size : Int
  filename : String
  url : String
deriving DecidableEq, Repr

/-- The two possible HTTP outcomes of the listFiles handler. -/
inductive FilesResp where
  | ok (files : List FileEntry)
  | internalError (msg : String)
deriving DecidableEq, Repr

/-- HTTP status code written by the listFiles handler. -/
def filesStatus : FilesResp → Nat
  | .ok _ => 200
  | .internalError _ => 500

/-- The loop body of listFiles: for each listed object whose key
contains both the protocol and the network substring, presign a
GetObject request for 15 minutes; the first presign failure aborts the
whole handler with a 500 response (the entries accumulated so far are
discarded).  The second component records the presign requests issued,
in order. -/
def listFilesLoop (protocol network : String) (presign : PresignFn) :
    List S3Object → FilesResp × List PresignReq
  | [] => (.ok [], [])
  | item :: rest =>
    if goContains item.key protocol && goContains item.key network then
      match presign item.key presignExpiryNs with
      | .error e => (.internalError e, [⟨item.key, presignExpiryNs⟩])
      | .ok url =>
        match listFilesLoop protocol network presign rest with
        | (.ok files, reqs) =>
          (.ok ({ lastModified := item.lastModified, size := item.size,
                  filename := item.key, url := url } :: files),
           ⟨item.key, presignExpiryNs⟩ :: reqs)
        | (.internalError e, reqs) =>
          (.internalError e, ⟨item.key, presignExpiryNs⟩ :: reqs)
    else listFilesLoop protocol network presign rest

/-- The listFiles handler.  listResult is the outcome of the single
ListObjectsV2 call the handler makes with Prefix = protocol/network/;
a listing error is returned as a 500 response before any presign is
requested. -/
def listFiles (protocol network : String)
    (listResult : Except String (List S3Object)) (presign : PresignFn) :
    FilesResp × List PresignReq :=
  match listResult with
  | .error e => (.internalError e, [])
  | .ok items => listFilesLoop protocol network presign items

/-! ### latestSnapshot (GET /files/:protocol/:network/latest) -/

/-- The three possible HTTP outcomes of the latestSnapshot handler. -/
inductive LatestResp where
  | ok (url : String) (size : Int) (lastModified : Int)
  | notFound (message : String)
  | internalError (msg : String)
deriving DecidableEq, Repr

/-- HTTP status code written by the latestSnapshot handler. -/
def latestStatus : LatestResp → Nat
  | .ok _ _ _ => 200
  | .notFound _ => 404
  | .internalError _ => 500

/-- The body of the pagination callback of latestSnapshot: an item
replaces the running candidate when its key differs from the sentinel
pre ++ "snapshot-latest.json" and is byte-wise greater than the
current candidate's key (or there is no candidate yet). -/
def stepLatest (pre : String) (cur : Option S3Object) (item : S3Object) :
    Option S3Object :=
  if (item.key != pre ++ "snapshot-latest.json") &&
      (match cur with
       | none => true
       | some latest => goStrLt latest.key item.key) then
    some item
  else cur

/-- The candidate left after ListObjectsV2Pages has run the callback
over every page (the Go callback always returns true, so no page is
skipped). -/
def latestObject (pre : String) (pages : List (List S3Object)) :
    Option S3Object :=
  pages.foldl (fun cur page => page.foldl (stepLatest pre) cur) none

/-- The same selection performed on key strings alone; used to state
that the selection depends only on the keys, never on lastModified. -/
def stepLatestKey (pre : String) (cur : Option String) (k : String) :
    Option String :=
  if (k != pre ++ "snapshot-latest.json") &&
      (match cur with
       | none => true
       | some latest => goStrLt latest k) then
    some k
  else cur

/-- Key-level version of latestObject. -/
def latestKey (pre : String) (keyPages : List (List String)) :
    Option String :=
  keyPages.foldl (fun cur page => page.foldl (stepLatestKey pre) cur) none

/-- The latestSnapshot handler.  pages are the listing pages delivered
by ListObjectsV2Pages for Prefix = protocol/network/, and listErr the
error that call returned (checked first, exactly as in the source); on
success the selected object is presigned for 15 minutes. -/
def latestSnapshot (protocol network : String)
    (pages : List (List S3Object)) (listErr : Option String)
    (presign : PresignFn) : LatestResp × List PresignReq :=
  let pre := protocol ++ "/" ++ network ++ "/"
  match listErr with
  | some e => (.internalError e, [])
  | none =>
    match latestObject pre pages with
    | none => (.notFound "No snapshots found", [])
    | some obj =>
      match presign obj.key presignExpiryNs with
      | .error e => (.internalError e, [⟨obj.key, presignExpiryNs⟩])
      | .ok url =>
        (.ok url obj.size obj.lastModified, [⟨obj.key, presignExpiryNs⟩])

/-! ### listKeys (GET /keys) -/

/-- The listKeys handler's response: it always writes HTTP 200 with a
dirs array. -/
structure KeysResp where
  status : Nat
  dirs : List String
deriving DecidableEq, Repr

/-- Insertion into the dirMap: Go map semantics deduplicate; we keep
first-insertion order as the canonical enumeration of the map. -/
def insertDir (acc : List String) (d : String) : List String :=
  if d ∈ acc then acc else acc ++ [d]

/-- One iteration of the listKeys loop: a key with at least two
slash-separated segments contributes segment0 ++ "/" ++ segment1. -/
def keysStep (acc : List String) (o : S3Object) : List String :=
  match goSplitSlash o.key with
  | s0 :: s1 :: _ => insertDir acc (s0 ++ "/" ++ s1)
  | _ => acc

/-- The loop of listKeys over the whole listing. -/
def listKeysDirs (contents : List S3Object) : List String :=
  contents.foldl keysStep []

/-- The listKeys handler.  The Go code discards the error of its
ListObjectsV2 call (resp, _ := ...), so the response ignores listErr
and is always HTTP 200 over whatever contents were returned. -/
def listKeys (contents : List S3Object) (listErr : Option String) :
    KeysResp :=
  { status := 200, dirs := listKeysDirs contents }

/-! ### snapshotInfo (GET /files/:protocol/:network/info) -/

/-- A parsed JSON document (the handler passes it through without
inspecting its shape). -/
inductive JsonVal where
  | null
  | bool (b : Bool)
  | num (n : Int)
  | str (s : String)
  | arr (elems : List JsonVal)
  | obj (fields : List (String × JsonVal))

/-- An error returned by the S3 GetObject call: either an awserr.Error
carrying a classification code, or a plain error. -/
inductive GetErr where
  | aws (code : String) (msg : String)
  | plain (msg : String)

/-- s3.ErrCodeNoSuchKey. -/
def errCodeNoSuchKey : String := "NoSuchKey"

/-- The three possible HTTP outcomes of the snapshotInfo handler. -/
inductive InfoResp where
  | ok (data : JsonVal)
  | notFound (message : String)
  | internalError (msg : String)

/-- HTTP status code written by the snapshotInfo handler. -/
def infoStatus : InfoResp → Nat
  | .ok _ => 200
  | .notFound _ => 404
  | .internalError _ => 500

/-- The snapshotInfo handler.  fetch models GetObject (applied to the
fixed metadata key protocol/network/snapshot-latest.json); its success
value is the outcome of reading the body (ioutil.ReadAll).  unmarshal
models json.Unmarshal.  An awserr with code NoSuchKey yields 404; every
other failure — other aws codes, plain errors, body-read errors and
JSON parse errors — yields the same 500 internal-error response. -/
def snapshotInfo (protocol network : String)
    (fetch : String → Except GetErr (Except String String))
    (unmarshal : String → Except String JsonVal) : InfoResp :=
  match fetch (protocol ++ "/" ++ network ++ "/snapshot-latest.json") with
  | .error (.aws code msg) =>
    if code = errCodeNoSuchKey then .notFound "Snapshot not found"
    else .internalError msg
  | .error (.plain msg) => .internalError msg
  | .ok (.error readErr) => .internalError readErr
  | .ok (.ok body) =>
    match unmarshal body with
    | .error e => .internalError e
    | .ok data => .ok data

/-! ## Order lemmas for the byte-wise comparison -/

theorem byteLt_irrefl : ∀ x : List Nat, byteLt x x = false
  | [] => rfl
  | a :: as => by simp [byteLt, byteLt_irrefl as]

theorem byteLt_trans :
    ∀ x y z : List Nat, byteLt x y = true → byteLt y z = true →
      byteLt x z = true := by
  intro x y z h1 h2
  induction x generalizing y z with
  | nil =>
    cases z with
    | nil => cases y <;> simp [byteLt] at h2
    | cons c cs => simp [byteLt]
  | cons a as ih =>
    cases y with
    | nil => simp [byteLt] at h1
    | cons b bs =>
      cases z with
      | nil => simp [byteLt] at h2
      | cons c cs =>
        simp only [byteLt] at h1 h2 ⊢
        by_cases hab : a = b
        · subst hab
          by_cases hac : a = c
          · subst hac
            simp only [if_pos rfl] at h1 h2 ⊢
            exact ih bs cs h1 h2
          · simp only [if_pos rfl] at h1
            simp only [if_neg hac] at h2 ⊢
            exact h2
        · by_cases hbc : b = c
          · subst hbc
            simp only [if_neg hab] at h1 ⊢
            exact h1
          · simp only [if_neg hab] at h1
            simp only [if_neg hbc] at h2
            have hab' : a < b := of_decide_eq_true h1
            have hbc' : b < c := of_decide_eq_true h2
            have hac : a ≠ c := by omega
            simp only [if_neg hac]
            exact decide_eq_true (by omega)

theorem byteLt_connex :
    ∀ x y : List Nat, byteLt x y = false → byteLt y x = false → x = y := by
  intro x y h1 h2
  induction x generalizing y with
  | nil =>
    cases y with
    | nil => rfl
    | cons b bs => simp [byteLt] at h1
  | cons a as ih =>
    cases y with
    | nil => simp [byteLt] at h2
    | cons b bs =>
      simp only [byteLt] at h1 h2
      by_cases hab : a = b
      · subst hab
        simp only [if_pos rfl] at h1 h2
        rw [ih bs h1 h2]
      · have hba : ¬ b = a := fun h => hab h.symm
        simp only [if_neg hab] at h1
        simp only [if_neg hba] at h2
        have l1 : ¬ a < b := of_decide_eq_false h1
        have l2 : ¬ b < a := of_decide_eq_false h2
        exact absurd (by omega : a = b) hab

theorem byteLt_asymm (x y : List Nat) (h : byteLt x y = true) :
    byteLt y x = false := by
  cases h2 : byteLt y x with
  | false => rfl
  | true =>
    have h3 := byteLt_trans x y x h h2
    rw [byteLt_irrefl] at h3
    exact Bool.noConfusion h3

theorem byteLt_false_trans (x y z : List Nat) (h1 : byteLt x y = false)
    (h2 : byteLt z x = false) : byteLt z y = false := by
  cases h3 : byteLt z y with
  | false => rfl
  | true =>
    cases h4 : byteLt y x with
    | true =>
      have h5 := byteLt_trans z y x h3 h4
      rw [h2] at h5
      exact Bool.noConfusion h5
    | false =>
      have hxy := byteLt_connex x y h1 h4
      rw [← hxy] at h3
      rw [h2] at h3
      exact Bool.noConfusion h3

theorem goStrLt_irrefl (s : String) : goStrLt s s = false :=
  byteLt_irrefl _

theorem goStrLt_trans {a b c : String} (h1 : goStrLt a b = true)
    (h2 : goStrLt b c = true) : goStrLt a c = true :=
  byteLt_trans _ _ _ h1 h2

theorem goStrLt_false_trans {a b c : String} (h1 : goStrLt a b = false)
    (h2 : goStrLt c a = false) : goStrLt c b = false :=
  byteLt_false_trans _ _ _ h1 h2

/-! ## Invariants of the latest-snapshot fold -/

theorem foldl_stepLatest_dom (pre : String) :
    ∀ (items : List S3Object) (cur : Option S3Object) (sel : S3Object),
      items.foldl (stepLatest pre) cur = some sel →
      (∀ c, cur = some c → goStrLt sel.key c.key = false) ∧
      (∀ o, o ∈ items → o.key ≠ pre ++ "snapshot-latest.json" →
        goStrLt sel.key o.key = false) := by
  intro items
  induction items with
  | nil =>
    intro cur sel h
    simp only [List.foldl_nil] at h
    subst h
    refine ⟨?_, ?_⟩
    · intro c hc
      cases hc
      exact goStrLt_irrefl _
    · intro o ho
      cases ho
  | cons item rest ih =>
    intro cur sel h
    simp only [List.foldl_cons] at h
    have ihh := ih (stepLatest pre cur item) sel h
    by_cases hsent : item.key = pre ++ "snapshot-latest.json"
    · have hstep : stepLatest pre cur item = cur := by
        simp [stepLatest, hsent]
      rw [hstep] at ihh
      refine ⟨ihh.1, ?_⟩
      intro o ho hok
      rcases List.mem_cons.mp ho with rfl | hmem
      · exact absurd hsent hok
      · exact ihh.2 o hmem hok
    · cases cur with
      | none =>
        have hstep : stepLatest pre none item = some item := by
          simp [stepLatest, hsent]
        rw [hstep] at ihh
        refine ⟨?_, ?_⟩
        · intro c hc
          cases hc
        · intro o ho _
          rcases List.mem_cons.mp ho with rfl | hmem
          · exact ihh.1 o rfl
          · exact ihh.2 o hmem ‹_›
      | some c =>
        cases hlt : goStrLt c.key item.key with
        | true =>
          have hstep : stepLatest pre (some c) item = some item := by
            simp [stepLatest, hsent, hlt]
          rw [hstep] at ihh
          have hsi : goStrLt sel.key item.key = false := ihh.1 item rfl
          have hsc : goStrLt sel.key c.key = false := by
            cases h2 : goStrLt sel.key c.key with
            | false => rfl
            | true =>
              have h3 := goStrLt_trans h2 hlt
              rw [hsi] at h3
              exact Bool.noConfusion h3
          refine ⟨?_, ?_⟩
          · intro c' hc'
            cases hc'
            exact hsc
          · intro o ho hok
            rcases List.mem_cons.mp ho with rfl | hmem
            · exact hsi
            · exact ihh.2 o hmem hok
        | false =>
          have hstep : stepLatest pre (some c) item = some c := by
            simp [stepLatest, hsent, hlt]
          rw [hstep] at ihh
          have hsc : goStrLt sel.key c.key = false := ihh.1 c rfl
          refine ⟨?_, ?_⟩
          · intro c' hc'
            cases hc'
            exact hsc
          · intro o ho hok
            rcases List.mem_cons.mp ho with rfl | hmem
            · exact goStrLt_false_trans hlt hsc
            · exact ihh.2 o hmem hok

theorem foldl_stepLatest_mem (pre : String) :
    ∀ (items : List S3Object) (cur : Option S3Object),
      items.foldl (stepLatest pre) cur = cur ∨
      ∃ sel, items.foldl (stepLatest pre) cur = some sel ∧ sel ∈ items ∧
        sel.key ≠ pre ++ "snapshot-latest.json" := by
  intro items
  induction items with
  | nil =>
    intro cur
    left
    rfl
  | cons item rest ih =>
    intro cur
    simp only [List.foldl_cons]
    rcases ih (stepLatest pre cur item) with heq | ⟨sel, hsel, hmem, hok⟩
    · rw [heq]
      by_cases hsent : item.key = pre ++ "snapshot-latest.json"
      · left
        simp [stepLatest, hsent]
      · cases cur with
        | none =>
          right
          exact ⟨item, by simp [stepLatest, hsent], List.mem_cons_self item rest,
            hsent⟩
        | some c =>
          cases hlt : goStrLt c.key item.key with
          | true =>
            right
            exact ⟨item, by simp [stepLatest, hsent, hlt],
              List.mem_cons_self item rest, hsent⟩
          | false =>
            left
            simp [stepLatest, hsent, hlt]
    · right
      exact ⟨sel, hsel, List.mem_cons_of_mem _ hmem, hok⟩

theorem foldl_stepLatest_all_sentinel (pre : String) :
    ∀ (items : List S3Object),
      (∀ o, o ∈ items → o.key = pre ++ "snapshot-latest.json") →
      items.foldl (stepLatest pre) none = none := by
  intro items
  induction items with
  | nil =>
    intro _
    rfl
  | cons item rest ih =>
    intro hall
    simp only [List.foldl_cons]
    have hsent := hall item (List.mem_cons_self item rest)
    have hstep : stepLatest pre none item = none := by
      simp [stepLatest, hsent]
    rw [hstep]
    exact ih (fun o ho => hall o (List.mem_cons_of_mem _ ho))

theorem foldl_pages_eq_flatten {α β : Type} (f : β → α → β) :
    ∀ (pages : List (List α)) (init : β),
      pages.foldl (fun cur page => page.foldl f cur) init =
        pages.flatten.foldl f init := by
  intro pages
  induction pages with
  | nil =>
    intro init
    rfl
  | cons pg rest ih =>
    intro init
    simp only [List.foldl_cons, List.flatten_cons, List.foldl_append]
    exact ih _

theorem latestObject_eq_foldl_flatten (pre : String)
    (pages : List (List S3Object)) :
    latestObject pre pages = pages.flatten.foldl (stepLatest pre) none :=
  foldl_pages_eq_flatten (stepLatest pre) pages none

theorem stepLatest_map_key (pre : String) (cur : Option S3Object)
    (item : S3Object) :
    (stepLatest pre cur item).map S3Object.key =
      stepLatestKey pre (cur.map S3Object.key) item.key := by
  cases cur with
  | none =>
    simp only [stepLatest, stepLatestKey, Option.map_none']
    split <;> simp_all
  | some c =>
    simp only [stepLatest, stepLatestKey, Option.map_some']
    split <;> simp_all

theorem foldl_stepLatest_map_key (pre : String) :
    ∀ (page : List S3Object) (cur : Option S3Object),
      (page.foldl (stepLatest pre) cur).map S3Object.key =
        (page.map S3Object.key).foldl (stepLatestKey pre)
          (cur.map S3Object.key) := by
  intro page
  induction page with
  | nil =>
    intro cur
    rfl
  | cons item rest ih =>
    intro cur
    simp only [List.foldl_cons, List.map_cons]
    rw [ih, stepLatest_map_key]

theorem latestObject_map_key (pre : String) :
    ∀ (pages : List (List S3Object)) (cur : Option S3Object),
      (pages.foldl (fun c page => page.foldl (stepLatest pre) c) cur).map
          S3Object.key =
        (pages.map (List.map S3Object.key)).foldl
          (fun c page => page.foldl (stepLatestKey pre) c)
          (cur.map S3Object.key) := by
  intro pages
  induction pages with
  | nil =>
    intro cur
    rfl
  | cons pg rest ih =>
    intro cur
    simp only [List.foldl_cons, List.map_cons]
    rw [ih, foldl_stepLatest_map_key]

theorem latestObject_key_only (pre : String) (pages : List (List S3Object)) :
    (latestObject pre pages).map S3Object.key =
      latestKey pre (pages.map (List.map S3Object.key)) := by
  have h := latestObject_map_key pre pages none
  simpa [latestObject, latestKey] using h

/-! ## Lemmas about the listFiles loop -/

theorem listFilesLoop_durNs (protocol network : String) (presign : PresignFn) :
    ∀ (items : List S3Object) (req : PresignReq),
      req ∈ (listFilesLoop protocol network presign items).2 →
      req.durNs = presignExpiryNs := by
  intro items
  induction items with
  | nil =>
    intro req h
    simp [listFilesLoop] at h
  | cons item rest ih =>
    intro req h
    by_cases hflt : (goContains item.key protocol &&
        goContains item.key network) = true
    · simp only [listFilesLoop, hflt, if_true] at h
      cases hp : presign item.key presignExpiryNs with
      | error e =>
        rw [hp] at h
        simp at h
        rw [h]
      | ok url =>
        rw [hp] at h
        rcases hrest : listFilesLoop protocol network presign rest with ⟨r, reqs⟩
        cases r with
        | ok files =>
          rw [hrest] at h
          simp only [List.mem_cons] at h
          rcases h with rfl | hmem
          · rfl
          · exact ih req (by rw [hrest]; exact hmem)
        | internalError e =>
          rw [hrest] at h
          simp only [List.mem_cons] at h
          rcases h with rfl | hmem
          · rfl
          · exact ih req (by rw [hrest]; exact hmem)
    · simp only [listFilesLoop, hflt, if_false, Bool.false_eq_true] at h
      exact ih req h

theorem listFilesLoop_trace_le (protocol network : String)
    (presign : PresignFn) :
    ∀ (items : List S3Object),
      (listFilesLoop protocol network presign items).2.length ≤
        (items.filter (fun o => goContains o.key protocol &&
          goContains o.key network)).length := by
  intro items
  induction items with
  | nil => simp [listFilesLoop]
  | cons item rest ih =>
    by_cases hflt : (goContains item.key protocol &&
        goContains item.key network) = true
    · simp only [listFilesLoop, hflt, if_true, List.filter_cons]
      cases hp : presign item.key presignExpiryNs with
      | error e =>
        simp only [List.length_cons, List.length_nil]
        omega
      | ok url =>
        rcases hrest : listFilesLoop protocol network presign rest with ⟨r, reqs⟩
        have hlen : reqs.length ≤ (rest.filter (fun o =>
            goContains o.key protocol && goContains o.key network)).length := by
          have := ih
          rw [hrest] at this
          exact this
        cases r with
        | ok files =>
          simp only [List.length_cons]
          omega
        | internalError e =>
          simp only [List.length_cons]
          omega
    · simp only [listFilesLoop, hflt, if_false, Bool.false_eq_true,
        List.filter_cons]
      exact ih

theorem listFilesLoop_ok_filenames (protocol network : String)
    (presign : PresignFn) :
    ∀ (items : List S3Object) (files : List FileEntry)
      (reqs : List PresignReq),
      listFilesLoop protocol network presign items = (.ok files, reqs) →
      files.map FileEntry.filename =
        (items.filter (fun o => goContains o.key protocol &&
          goContains o.key network)).map S3Object.key := by
  intro items
  induction items with
  | nil =>
    intro files reqs h
    simp only [listFilesLoop, Prod.mk.injEq, FilesResp.ok.injEq] at h
    rw [← h.1]
    simp
  | cons item rest ih =>
    intro files reqs h
    by_cases hflt : (goContains item.key protocol &&
        goContains item.key network) = true
    · simp only [listFilesLoop, hflt, if_true] at h
      cases hp : presign item.key presignExpiryNs with
      | error e =>
        rw [hp] at h
        simp at h
      | ok url =>
        rw [hp] at h
        rcases hrest : listFilesLoop protocol network presign rest with ⟨r, rs⟩
        cases r with
        | ok fs =>
          rw [hrest] at h
          simp only [Prod.mk.injEq, FilesResp.ok.injEq] at h
          rw [← h.1]
          simp only [List.filter_cons, hflt, if_true, List.map_cons]
          rw [ih fs rs hrest]
        | internalError e =>
          rw [hrest] at h
          simp at h
    · simp only [listFilesLoop, hflt, if_false, Bool.false_eq_true] at h
      simp only [List.filter_cons, hflt, if_false]
      exact ih files reqs h

theorem listFilesLoop_ok_presigns (protocol network : String)
    (presign : PresignFn) :
    ∀ (items : List S3Object) (files : List FileEntry)
      (reqs : List PresignReq),
      listFilesLoop protocol network presign items = (.ok files, reqs) →
      ∀ o, o ∈ items →
        (goContains o.key protocol && goContains o.key network) = true →
        ∃ u, presign o.key presignExpiryNs = .ok u := by
  intro items
  induction items with
  | nil =>
    intro files reqs _ o ho
    cases ho
  | cons item rest ih =>
    intro files reqs h o ho hoflt
    by_cases hflt : (goContains item.key protocol &&
        goContains item.key network) = true
    · simp only [listFilesLoop, hflt, if_true] at h
      cases hp : presign item.key presignExpiryNs with
      | error e =>
        rw [hp] at h
        simp at h
      | ok url =>
        rw [hp] at h
        rcases hrest : listFilesLoop protocol network presign rest with ⟨r, rs⟩
        cases r with
        | ok fs =>
          rcases List.mem_cons.mp ho with rfl | hmem
          · exact ⟨url, hp⟩
          · exact ih fs rs hrest o hmem hoflt
        | internalError e =>
          rw [hrest] at h
          simp at h
    · simp only [listFilesLoop, hflt, if_false, Bool.false_eq_true] at h
      rcases List.mem_cons.mp ho with rfl | hmem
      · exact absurd hoflt hflt
      · exact ih files reqs h o hmem hoflt

/-! ## Substring lemmas -/

theorem listIsPfxOf_iff : ∀ x y : List Char, listIsPfxOf x y = true ↔ x <+: y := by
  intro x
  induction x with
  | nil =>
    intro y
    simp [listIsPfxOf]
  | cons a as ih =>
    intro y
    cases y with
    | nil =>
      simp [listIsPfxOf]
    | cons b bs =>
      simp [listIsPfxOf, List.cons_prefix_cons, ih, Bool.and_eq_true,
        decide_eq_true_eq]

theorem containsAux_iff : ∀ s sub : List Char, containsAux sub s = true ↔ sub <:+: s := by
  intro s
  induction s with
  | nil =>
    intro sub
    cases sub <;> simp [containsAux]
  | cons c t ih =>
    intro sub
    simp [containsAux, listIsPfxOf_iff, ih, List.infix_cons_iff]

theorem goContains_iff (s sub : String) :
    goContains s sub = true ↔ sub.data <:+: s.data :=
  containsAux_iff s.data sub.data

theorem goHasPfx_iff (s pfx : String) :
    goHasPfx s pfx = true ↔ pfx.data <+: s.data :=
  listIsPfxOf_iff pfx.data s.data

theorem goHasPfx_goContains (k p n : String)
    (h : goHasPfx k (p ++ "/" ++ n ++ "/") = true) :
    goContains k p = true ∧ goContains k n = true := by
  rw [goHasPfx_iff] at h
  have hp : p.data <+: (p ++ "/" ++ n ++ "/").data := by
    simp only [String.data_append, List.append_assoc]
    exact List.prefix_append _ _
  have hn : n.data <:+: (p ++ "/" ++ n ++ "/").data := by
    simp only [String.data_append]
    exact ⟨p.data ++ "/".data, "/".data, by simp [List.append_assoc]⟩
  exact ⟨(goContains_iff k p).mpr ((hp.trans h).isInfix),
         (goContains_iff k n).mpr (hn.trans h.isInfix)⟩

/-! ## Lemmas about the listKeys loop -/

theorem insertDir_mem (acc : List String) (d x : String) :
    x ∈ insertDir acc d ↔ x ∈ acc ∨ x = d := by
  by_cases h : d ∈ acc
  · simp only [insertDir, if_pos h]
    exact ⟨Or.inl, fun hc => hc.elim id (fun he => he ▸ h)⟩
  · simp only [insertDir, if_neg h, List.mem_append, List.mem_singleton]

theorem insertDir_nodup (acc : List String) (d : String) (h : acc.Nodup) :
    (insertDir acc d).Nodup := by
  by_cases hm : d ∈ acc
  · simpa [insertDir, hm] using h
  · simp only [insertDir, if_neg hm]
    simp [List.nodup_append, h, hm]

theorem foldl_keysStep_mem :
    ∀ (contents : List S3Object) (acc : List String) (d : String),
      d ∈ contents.foldl keysStep acc ↔
        d ∈ acc ∨ ∃ o, o ∈ contents ∧ ∃ s0 s1 rest,
          goSplitSlash o.key = s0 :: s1 :: rest ∧ d = s0 ++ "/" ++ s1 := by
  intro contents
  induction contents with
  | nil =>
    intro acc d
    simp
  | cons o cs ih =>
    intro acc d
    simp only [List.foldl_cons]
    rw [ih]
    have hstep : d ∈ keysStep acc o ↔
        d ∈ acc ∨ ∃ s0 s1 rest,
          goSplitSlash o.key = s0 :: s1 :: rest ∧ d = s0 ++ "/" ++ s1 := by
      unfold keysStep
      cases hsplit : goSplitSlash o.key with
      | nil => simp [hsplit]
      | cons s0 tl =>
        cases tl with
        | nil => simp [hsplit]
        | cons s1 rest2 =>
          rw [insertDir_mem]
          simp only [hsplit, List.cons.injEq]
          constructor
          · rintro (hd | rfl)
            · exact Or.inl hd
            · exact Or.inr ⟨s0, s1, rest2, ⟨rfl, rfl, rfl⟩, rfl⟩
          · rintro (hd | ⟨s0', s1', rest', ⟨rfl, rfl, rfl⟩, rfl⟩)
            · exact Or.inl hd
            · exact Or.inr rfl
    rw [hstep]
    constructor
    · rintro ((hd | hex) | ⟨o', ho', hx⟩)
      · exact Or.inl hd
      · exact Or.inr ⟨o, List.mem_cons_self o cs, hex⟩
      · exact Or.inr ⟨o', List.mem_cons_of_mem _ ho', hx⟩
    · rintro (hd | ⟨o', ho', hx⟩)
      · exact Or.inl (Or.inl hd)
      · rcases List.mem_cons.mp ho' with rfl | hmem
        · exact Or.inl (Or.inr hx)
        · exact Or.inr ⟨o', hmem, hx⟩

theorem foldl_keysStep_nodup :
    ∀ (contents : List S3Object) (acc : List String), acc.Nodup →
      (contents.foldl keysStep acc).Nodup := by
  intro contents
  induction contents with
  | nil =>
    intro acc h
    exact h
  | cons o cs ih =>
    intro acc h
    simp only [List.foldl_cons]
    apply ih
    unfold keysStep
    cases goSplitSlash o.key with
    | nil => exact h
    | cons s0 tl =>
      cases tl with
      | nil => exact h
      | cons s1 rest2 => exact insertDir_nodup _ _ h

/-! ## Claim theorems -/

/-- C1: For every protocol/network pair, the latestSnapshot handler selects,
among all objects enumerated under the prefix protocol/network/ across every
page of the paginated listing (pages.flatten, not only the first page), the
object whose key string is byte-wise lexicographically greatest among the
non-sentinel keys; the response carries that object's size, lastModified and
presigned URL, and the selection is a function of the listed key strings
alone, so lastModified timestamps play no role in it. -/
theorem latestSnapshot_selects_lex_greatest_key
    (protocol network : String) (pages : List (List S3Object))
    (presign : PresignFn) (url : String) (size lastModified : Int)
    (h : (latestSnapshot protocol network pages none presign).1 =
      .ok url size lastModified) :
    ∃ sel : S3Object,
      latestObject (protocol ++ "/" ++ network ++ "/") pages = some sel ∧
      sel ∈ pages.flatten ∧
      sel.key ≠ protocol ++ "/" ++ network ++ "/" ++ "snapshot-latest.json" ∧
      sel.size = size ∧ sel.lastModified = lastModified ∧
      presign sel.key presignExpiryNs = .ok url ∧
      (∀ o ∈ pages.flatten,
        o.key ≠ protocol ++ "/" ++ network ++ "/" ++ "snapshot-latest.json" →
        goStrLt sel.key o.key = false) ∧
      (∀ pages' : List (List S3Object),
        pages'.map (List.map S3Object.key) =
          pages.map (List.map S3Object.key) →
        (latestObject (protocol ++ "/" ++ network ++ "/") pages').map
          S3Object.key = some sel.key) := by
  simp only [latestSnapshot] at h
  cases hobj : latestObject (protocol ++ "/" ++ network ++ "/") pages with
  | none =>
    rw [hobj] at h
    simp at h
  | some obj =>
    rw [hobj] at h
    cases hp : presign obj.key presignExpiryNs with
    | error e =>
      simp [hp] at h
    | ok u =>
      simp only [hp, LatestResp.ok.injEq] at h
      obtain ⟨hu, hsize, hlm⟩ := h
      have hfold : pages.flatten.foldl
          (stepLatest (protocol ++ "/" ++ network ++ "/")) none = some obj := by
        rw [← latestObject_eq_foldl_flatten]
        exact hobj
      have hmem : obj ∈ pages.flatten ∧
          obj.key ≠ protocol ++ "/" ++ network ++ "/" ++
            "snapshot-latest.json" := by
        rcases foldl_stepLatest_mem (protocol ++ "/" ++ network ++ "/")
            pages.flatten none with heq | ⟨sel', hsel', hm, hok⟩
        · rw [heq] at hfold
          exact Option.noConfusion hfold
        · rw [hsel'] at hfold
          cases hfold
          exact ⟨hm, hok⟩
      have hdom := (foldl_stepLatest_dom (protocol ++ "/" ++ network ++ "/")
        pages.flatten none obj hfold).2
      refine ⟨obj, rfl, hmem.1, hmem.2, hsize, hlm,
        hu ▸ hp, hdom, ?_⟩
      intro pages' hkeys
      rw [latestObject_key_only, hkeys, ← latestObject_key_only, hobj]
      rfl

/-- C1 witness: a two-page listing in which the byte-wise greatest
non-sentinel key sits on the second page; latestSnapshot selects it. -/
theorem latestSnapshot_selects_lex_greatest_key_witness :
    ∃ sel : SnapshotService.S3Object,
      latestObject ("btc" ++ "/" ++ "mainnet" ++ "/")
        [[⟨"btc/mainnet/2024-01-01T00-00-00.tar.gz", 10, 5⟩,
          ⟨"btc/mainnet/snapshot-latest.json", 1, 9⟩],
         [⟨"btc/mainnet/2024-02-01T00-00-00.tar.gz", 20, 3⟩]] = some sel ∧
      sel ∈ ([[⟨"btc/mainnet/2024-01-01T00-00-00.tar.gz", 10, 5⟩,
          ⟨"btc/mainnet/snapshot-latest.json", 1, 9⟩],
         [⟨"btc/mainnet/2024-02-01T00-00-00.tar.gz", 20, 3⟩]] :
           List (List S3Object)).flatten ∧
      sel.key ≠ "btc" ++ "/" ++ "mainnet" ++ "/" ++ "snapshot-latest.json" ∧
      sel.size = 20 ∧ sel.lastModified = 3 ∧
      (fun k (_ : Nat) => (Except.ok ("https://signed/" ++ k) :
        Except String String)) sel.key presignExpiryNs =
        .ok "https://signed/btc/mainnet/2024-02-01T00-00-00.tar.gz" ∧
      (∀ o ∈ ([[⟨"btc/mainnet/2024-01-01T00-00-00.tar.gz", 10, 5⟩,
          ⟨"btc/mainnet/snapshot-latest.json", 1, 9⟩],
         [⟨"btc/mainnet/2024-02-01T00-00-00.tar.gz", 20, 3⟩]] :
           List (List S3Object)).flatten,
        o.key ≠ "btc" ++ "/" ++ "mainnet" ++ "/" ++ "snapshot-latest.json" →
        goStrLt sel.key o.key = false) ∧
      (∀ pages' : List (List S3Object),
        pages'.map (List.map S3Object.key) =
          ([[⟨"btc/mainnet/2024-01-01T00-00-00.tar.gz", 10, 5⟩,
          ⟨"btc/mainnet/snapshot-latest.json", 1, 9⟩],
         [⟨"btc/mainnet/2024-02-01T00-00-00.tar.gz", 20, 3⟩]] :
           List (List S3Object)).map (List.map S3Object.key) →
        (latestObject ("btc" ++ "/" ++ "mainnet" ++ "/") pages').map
          S3Object.key = some sel.key) :=
  latestSnapshot_selects_lex_greatest_key "btc" "mainnet"
    [[⟨"btc/mainnet/2024-01-01T00-00-00.tar.gz", 10, 5⟩,
      ⟨"btc/mainnet/snapshot-latest.json", 1, 9⟩],
     [⟨"btc/mainnet/2024-02-01T00-00-00.tar.gz", 20, 3⟩]]
    (fun k _ => .ok ("https://signed/" ++ k))
    "https://signed/btc/mainnet/2024-02-01T00-00-00.tar.gz" 20 3 (by decide)

/-- C2: latestSnapshot never selects the sentinel key
protocol/network/snapshot-latest.json: whatever candidate the pagination
fold yields has a different key, and no presign request the handler issues
is for the sentinel key. -/
theorem latestSnapshot_excludes_sentinel
    (protocol network : String) (pages : List (List S3Object))
    (listErr : Option String) (presign : PresignFn) :
    (∀ sel, latestObject (protocol ++ "/" ++ network ++ "/") pages =
        some sel →
      sel.key ≠ protocol ++ "/" ++ network ++ "/" ++ "snapshot-latest.json") ∧
    (∀ req ∈ (latestSnapshot protocol network pages listErr presign).2,
      req.key ≠ protocol ++ "/" ++ network ++ "/" ++
        "snapshot-latest.json") := by
  have hsel : ∀ sel,
      latestObject (protocol ++ "/" ++ network ++ "/") pages = some sel →
      sel.key ≠ protocol ++ "/" ++ network ++ "/" ++
        "snapshot-latest.json" := by
    intro sel hs
    rw [latestObject_eq_foldl_flatten] at hs
    rcases foldl_stepLatest_mem (protocol ++ "/" ++ network ++ "/")
        pages.flatten none with heq | ⟨sel', hsel', _, hok⟩
    · rw [heq] at hs
      exact Option.noConfusion hs
    · rw [hsel'] at hs
      cases hs
      exact hok
  refine ⟨hsel, ?_⟩
  intro req hreq
  simp only [latestSnapshot] at hreq
  cases listErr with
  | some e =>
    simp at hreq
  | none =>
    cases hobj : latestObject (protocol ++ "/" ++ network ++ "/") pages with
    | none =>
      rw [hobj] at hreq
      simp at hreq
    | some obj =>
      rw [hobj] at hreq
      cases hp : presign obj.key presignExpiryNs with
      | error e =>
        simp [hp] at hreq
        rw [hreq]
        exact hsel obj hobj
      | ok u =>
        simp [hp] at hreq
        rw [hreq]
        exact hsel obj hobj

/-- C3: on a listing that succeeds and holds no object other than the
sentinel under the prefix, latestSnapshot answers 404 notFound with the
message "No snapshots found"; this outcome differs from the 500
internalError produced by a listing failure or a presign failure. -/
theorem latestSnapshot_empty_namespace_notFound
    (protocol network : String) (pages : List (List S3Object))
    (presign : PresignFn)
    (hall : ∀ o ∈ pages.flatten,
      o.key = protocol ++ "/" ++ network ++ "/" ++ "snapshot-latest.json") :
    (latestSnapshot protocol network pages none presign).1 =
      .notFound "No snapshots found" ∧
    latestStatus (latestSnapshot protocol network pages none presign).1 =
      404 ∧
    (∀ e, (latestSnapshot protocol network pages (some e) presign).1 =
      .internalError e) ∧
    (∀ (pages2 : List (List S3Object)) (presign2 : PresignFn)
      (obj : S3Object) (msg : String),
      latestObject (protocol ++ "/" ++ network ++ "/") pages2 = some obj →
      presign2 obj.key presignExpiryNs = .error msg →
      (latestSnapshot protocol network pages2 none presign2).1 =
        .internalError msg) ∧
    (∀ m e : String, (LatestResp.notFound m) ≠ .internalError e) := by
  have hobj : latestObject (protocol ++ "/" ++ network ++ "/") pages =
      none := by
    rw [latestObject_eq_foldl_flatten]
    exact foldl_stepLatest_all_sentinel _ _ hall
  refine ⟨?_, ?_, ?_, ?_, ?_⟩
  · simp [latestSnapshot, hobj]
  · simp [latestSnapshot, hobj, latestStatus]
  · intro e
    simp [latestSnapshot]
  · intro pages2 presign2 obj msg hobj2 hp2
    simp [latestSnapshot, hobj2, hp2]
  · intro m e h
    exact LatestResp.noConfusion h

/-- C3 witness: a namespace holding only the sentinel object yields 404. -/
theorem latestSnapshot_empty_namespace_notFound_witness :
    (latestSnapshot "eth" "testnet"
      [[⟨"eth/testnet/snapshot-latest.json", 1, 0⟩]] none
      (fun k _ => .ok ("https://signed/" ++ k))).1 =
      .notFound "No snapshots found" :=
  (latestSnapshot_empty_namespace_notFound "eth" "testnet"
    [[⟨"eth/testnet/snapshot-latest.json", 1, 0⟩]]
    (fun k _ => .ok ("https://signed/" ++ k)) (by decide)).1

/-- Helper for C10: when no listed object passes the substring filters the
listFiles loop produces the empty success result and issues no presign
request. -/
theorem listFilesLoop_no_match (protocol network : String)
    (presign : PresignFn) :
    ∀ items : List S3Object,
      (∀ o ∈ items, (goContains o.key protocol &&
        goContains o.key network) = false) →
      listFilesLoop protocol network presign items = (.ok [], []) := by
  intro items
  induction items with
  | nil =>
    intro _
    rfl
  | cons item rest ih =>
    intro hnone
    have hflt := hnone item (List.mem_cons_self item rest)
    simp only [listFilesLoop, hflt, Bool.false_eq_true, if_false]
    exact ih (fun o ho => hnone o (List.mem_cons_of_mem _ ho))

/-- C4: listFiles returns exactly one link per object matching the filters —
on a success response the filenames are exactly the matched keys in listing
order, and never more presign requests are issued than objects matched —
while a listing failure or any single presign failure fails the whole call
with a 500 internalError and no partial list. -/
theorem listFiles_one_link_per_match_all_or_nothing
    (protocol network : String) (presign : PresignFn)
    (items : List S3Object) (e : String) :
    (listFiles protocol network (.error e) presign =
      (.internalError e, [])) ∧
    ((listFiles protocol network (.ok items) presign).2.length ≤
      (items.filter (fun o => goContains o.key protocol &&
        goContains o.key network)).length) ∧
    (∀ files, (listFiles protocol network (.ok items) presign).1 =
        .ok files →
      files.map FileEntry.filename =
        (items.filter (fun o => goContains o.key protocol &&
          goContains o.key network)).map S3Object.key) ∧
    ((∃ o ∈ items, (goContains o.key protocol &&
        goContains o.key network) = true ∧
        ∃ msg, presign o.key presignExpiryNs = .error msg) →
      ∃ msg, (listFiles protocol network (.ok items) presign).1 =
        .internalError msg) := by
  refine ⟨rfl, listFilesLoop_trace_le protocol network presign items, ?_, ?_⟩
  · intro files hok
    simp only [listFiles] at hok
    rcases hrest : listFilesLoop protocol network presign items with ⟨r, reqs⟩
    rw [hrest] at hok
    cases r with
    | ok fs =>
      cases hok
      exact listFilesLoop_ok_filenames protocol network presign items files
        reqs hrest
    | internalError m =>
      exact FilesResp.noConfusion hok
  · rintro ⟨o, ho, hoflt, msg, hp⟩
    simp only [listFiles]
    rcases hrest : listFilesLoop protocol network presign items with ⟨r, reqs⟩
    cases r with
    | ok fs =>
      obtain ⟨u, hu⟩ := listFilesLoop_ok_presigns protocol network presign
        items fs reqs hrest o ho hoflt
      rw [hp] at hu
      exact Except.noConfusion hu
    | internalError m =>
      exact ⟨m, rfl⟩

/-- C4 witness: one matching and one non-matching object with a working
presign produce exactly one link, and a failing presign on the matched
object fails the whole call. -/
theorem listFiles_one_link_per_match_all_or_nothing_witness :
    ((listFiles "btc" "mainnet"
        (.ok [⟨"btc/mainnet/a.tar.gz", 7, 1⟩, ⟨"other", 1, 1⟩])
        (fun k _ => .ok ("u-" ++ k))).1 = .ok
          [⟨1, 7, "btc/mainnet/a.tar.gz", "u-btc/mainnet/a.tar.gz"⟩] →
      ([⟨1, 7, "btc/mainnet/a.tar.gz", "u-btc/mainnet/a.tar.gz"⟩] :
          List FileEntry).map FileEntry.filename =
        (([⟨"btc/mainnet/a.tar.gz", 7, 1⟩, ⟨"other", 1, 1⟩] :
            List S3Object).filter (fun o => goContains o.key "btc" &&
          goContains o.key "mainnet")).map S3Object.key) ∧
    ((∃ o ∈ ([⟨"btc/mainnet/a.tar.gz", 7, 1⟩, ⟨"other", 1, 1⟩] :
        List S3Object), (goContains o.key "btc" &&
        goContains o.key "mainnet") = true ∧
        ∃ msg, (fun (_ : String) (_ : Nat) =>
          (Except.error "boom" : Except String String)) o.key
            presignExpiryNs = .error msg) →
      ∃ msg, (listFiles "btc" "mainnet"
        (.ok [⟨"btc/mainnet/a.tar.gz", 7, 1⟩, ⟨"other", 1, 1⟩])
        (fun _ _ => .error "boom")).1 = .internalError msg) :=
  ⟨((listFiles_one_link_per_match_all_or_nothing "btc" "mainnet"
      (fun k _ => .ok ("u-" ++ k))
      [⟨"btc/mainnet/a.tar.gz", 7, 1⟩, ⟨"other", 1, 1⟩] "e").2.2.1
    [⟨1, 7, "btc/mainnet/a.tar.gz", "u-btc/mainnet/a.tar.gz"⟩]),
   ((listFiles_one_link_per_match_all_or_nothing "btc" "mainnet"
      (fun _ _ => .error "boom")
      [⟨"btc/mainnet/a.tar.gz", 7, 1⟩, ⟨"other", 1, 1⟩] "e").2.2.2)⟩

/-- C8: under the S3 contract that a prefix listing only returns keys
starting with the requested prefix protocol/network/, every link listFiles
returns is for a key with that prefix which also textually contains both the
protocol and the network substring; and, with or without that contract, an
object from the listing whose key lacks either substring contributes no
link. -/
theorem listFiles_links_under_namespace
    (protocol network : String) (presign : PresignFn)
    (items : List S3Object) (files : List FileEntry) :
    ((∀ o ∈ items, goHasPfx o.key (protocol ++ "/" ++ network ++ "/") =
        true) →
      (listFiles protocol network (.ok items) presign).1 = .ok files →
      ∀ f ∈ files,
        goHasPfx f.filename (protocol ++ "/" ++ network ++ "/") = true ∧
        goContains f.filename protocol = true ∧
        goContains f.filename network = true) ∧
    ((listFiles protocol network (.ok items) presign).1 = .ok files →
      ∀ o ∈ items,
        (goContains o.key protocol && goContains o.key network) = false →
        ∀ f ∈ files, f.filename ≠ o.key) := by
  have hnames : (listFiles protocol network (.ok items) presign).1 =
      .ok files →
      files.map FileEntry.filename =
        (items.filter (fun o => goContains o.key protocol &&
          goContains o.key network)).map S3Object.key := by
    intro hok
    simp only [listFiles] at hok
    rcases hrest : listFilesLoop protocol network presign items with ⟨r, reqs⟩
    rw [hrest] at hok
    cases r with
    | ok fs =>
      cases hok
      exact listFilesLoop_ok_filenames protocol network presign items files
        reqs hrest
    | internalError m =>
      exact FilesResp.noConfusion hok
  constructor
  · intro hpfx hok f hf
    have hmap := hnames hok
    have hfn : f.filename ∈ (items.filter (fun o =>
        goContains o.key protocol && goContains o.key network)).map
          S3Object.key := by
      rw [← hmap]
      exact List.mem_map_of_mem FileEntry.filename hf
    obtain ⟨o, homem, hokey⟩ := List.mem_map.mp hfn
    obtain ⟨hoitems, hoflt⟩ := List.mem_filter.mp homem
    obtain ⟨hcp, hcn⟩ : goContains o.key protocol = true ∧
        goContains o.key network = true := by simpa using hoflt
    refine ⟨?_, hokey ▸ hcp, hokey ▸ hcn⟩
    rw [← hokey]
    exact hpfx o hoitems
  · intro hok o ho hflt f hf hfeq
    have hmap := hnames hok
    have hfn : f.filename ∈ (items.filter (fun o =>
        goContains o.key protocol && goContains o.key network)).map
          S3Object.key := by
      rw [← hmap]
      exact List.mem_map_of_mem FileEntry.filename hf
    obtain ⟨o', homem, hokey⟩ := List.mem_map.mp hfn
    have hoflt := (List.mem_filter.mp homem).2
    rw [hfeq] at hokey
    rw [hokey] at hoflt
    rw [hflt] at hoflt
    exact Bool.noConfusion hoflt

/-- C8 witness: with the prefix contract satisfied, the single returned link
keeps the prefix and both substrings. -/
theorem listFiles_links_under_namespace_witness :
    ∀ f ∈ ([⟨1, 7, "btc/mainnet/a.tar.gz", "u-btc/mainnet/a.tar.gz"⟩] :
        List FileEntry),
      goHasPfx f.filename ("btc" ++ "/" ++ "mainnet" ++ "/") = true ∧
      goContains f.filename "btc" = true ∧
      goContains f.filename "mainnet" = true :=
  (listFiles_links_under_namespace "btc" "mainnet"
    (fun k _ => .ok ("u-" ++ k)) [⟨"btc/mainnet/a.tar.gz", 7, 1⟩]
    [⟨1, 7, "btc/mainnet/a.tar.gz", "u-btc/mainnet/a.tar.gz"⟩]).1
    (by decide) (by decide)

/-- C9: every presign request either handler issues — for each link of
listFiles and for the selected object of latestSnapshot — carries an expiry
of exactly 15 minutes (Go 15 * time.Minute, in nanoseconds). -/
theorem presign_requests_fifteen_minutes
    (protocol network : String) (presign : PresignFn)
    (listResult : Except String (List S3Object))
    (pages : List (List S3Object)) (listErr : Option String)
    (req : PresignReq) :
    (req ∈ (listFiles protocol network listResult presign).2 →
      req.durNs = 15 * 60 * 1000000000) ∧
    (req ∈ (latestSnapshot protocol network pages listErr presign).2 →
      req.durNs = 15 * 60 * 1000000000) := by
  constructor
  · intro hreq
    cases listResult with
    | error e =>
      simp [listFiles] at hreq
    | ok items =>
      exact listFilesLoop_durNs protocol network presign items req hreq
  · intro hreq
    simp only [latestSnapshot] at hreq
    cases listErr with
    | some e =>
      simp at hreq
    | none =>
      cases hobj : latestObject (protocol ++ "/" ++ network ++ "/") pages with
      | none =>
        rw [hobj] at hreq
        simp at hreq
      | some obj =>
        rw [hobj] at hreq
        cases hp : presign obj.key presignExpiryNs with
        | error e =>
          simp [hp] at hreq
          rw [hreq]
          rfl
        | ok u =>
          simp [hp] at hreq
          rw [hreq]
          rfl

/-- C9 witness: the one request issued for a concrete matching object
carries the 15-minute expiry, in both handlers. -/
theorem presign_requests_fifteen_minutes_witness :
    (PresignReq.mk "btc/mainnet/a.tar.gz" presignExpiryNs ∈
        (listFiles "btc" "mainnet" (.ok [⟨"btc/mainnet/a.tar.gz", 7, 1⟩])
          (fun k _ => .ok ("u-" ++ k))).2 →
      (PresignReq.mk "btc/mainnet/a.tar.gz" presignExpiryNs).durNs =
        15 * 60 * 1000000000) ∧
    (PresignReq.mk "btc/mainnet/a.tar.gz" presignExpiryNs ∈
        (latestSnapshot "btc" "mainnet" [[⟨"btc/mainnet/a.tar.gz", 7, 1⟩]]
          none (fun k _ => .ok ("u-" ++ k))).2 →
      (PresignReq.mk "btc/mainnet/a.tar.gz" presignExpiryNs).durNs =
        15 * 60 * 1000000000) :=
  presign_requests_fifteen_minutes "btc" "mainnet"
    (fun k _ => .ok ("u-" ++ k)) (.ok [⟨"btc/mainnet/a.tar.gz", 7, 1⟩])
    [[⟨"btc/mainnet/a.tar.gz", 7, 1⟩]] none
    (PresignReq.mk "btc/mainnet/a.tar.gz" presignExpiryNs)

/-- C10: when the listing succeeds but no listed object passes the
substring filters — in particular when the prefix is empty and the listing
holds no objects at all — listFiles answers HTTP 200 with an empty list of
links, issuing no presign request; it has no notFound outcome at all. -/
theorem listFiles_no_match_ok_empty
    (protocol network : String) (presign : PresignFn)
    (items : List S3Object)
    (hnone : ∀ o ∈ items, (goContains o.key protocol &&
      goContains o.key network) = false) :
    listFiles protocol network (.ok items) presign = (.ok [], []) ∧
    filesStatus (listFiles protocol network (.ok items) presign).1 = 200 := by
  have h := listFilesLoop_no_match protocol network presign items hnone
  constructor
  · simpa [listFiles] using h
  · simp [listFiles, h, filesStatus]

/-- C10 witness: an empty namespace yields HTTP 200 with an empty array. -/
theorem listFiles_no_match_ok_empty_witness :
    listFiles "eth" "testnet" (.ok []) (fun k _ => .ok ("u-" ++ k)) =
      (.ok [], []) :=
  (listFiles_no_match_ok_empty "eth" "testnet" (fun k _ => .ok ("u-" ++ k))
    [] (by decide)).1

/-- C5 counterexample: a body that fails to parse as JSON produces the very
same 500 internalError response as a store connectivity failure — with equal
message text the two responses are literally identical, and with distinct
texts both still carry HTTP status 500 — so the handler has no
MalformedMetadata classification distinct from a store failure. -/
theorem snapshotInfo_malformed_not_distinct :
    snapshotInfo "btc" "mainnet" (fun _ => .ok (.ok "xyz"))
        (fun _ => .error "connection refused") =
      .internalError "connection refused" ∧
    snapshotInfo "btc" "mainnet" (fun _ => .error (.plain "connection refused"))
        (fun _ => .error "connection refused") =
      .internalError "connection refused" ∧
    infoStatus (snapshotInfo "btc" "mainnet" (fun _ => .ok (.ok "xyz"))
      (fun _ => .error "invalid character x")) = 500 ∧
    infoStatus (snapshotInfo "btc" "mainnet"
      (fun _ => .error (.plain "dial tcp: connection refused"))
      (fun _ => .error "invalid character x")) = 500 :=
  ⟨rfl, rfl, rfl, rfl⟩

/-- C5 amended: snapshotInfo classifies a missing metadata key as a 404
notFound through the store's error code NoSuchKey alone — for every message
text, so no string matching is involved — while an awserr with any other
code, a plain store error, and a body that fails to parse as JSON all
produce the same generic 500 internalError response kind, not a distinct
MalformedMetadata classification. -/
theorem snapshotInfo_error_classification
    (protocol network code msg body e : String)
    (unmarshal : String → Except String JsonVal) :
    (snapshotInfo protocol network
        (fun _ => .error (.aws errCodeNoSuchKey msg)) unmarshal =
      .notFound "Snapshot not found") ∧
    (code ≠ errCodeNoSuchKey →
      snapshotInfo protocol network (fun _ => .error (.aws code msg))
        unmarshal = .internalError msg) ∧
    (snapshotInfo protocol network (fun _ => .error (.plain msg)) unmarshal =
      .internalError msg) ∧
    (unmarshal body = .error e →
      snapshotInfo protocol network (fun _ => .ok (.ok body)) unmarshal =
        .internalError e) ∧
    infoStatus (.notFound "Snapshot not found") = 404 ∧
    (∀ m, infoStatus (.internalError m) = 500) := by
  refine ⟨?_, ?_, rfl, ?_, rfl, fun m => rfl⟩
  · simp [snapshotInfo]
  · intro h
    simp [snapshotInfo, h]
  · intro h
    simp [snapshotInfo, h]

/-- C6: listKeys returns, without duplicates, exactly the strings
segment0 ++ "/" ++ segment1 over all object keys of the listing that split
on "/" into at least two segments; keys with fewer segments contribute
nothing. -/
theorem listKeys_namespace_pairs (contents : List S3Object)
    (listErr : Option String) :
    (listKeys contents listErr).dirs.Nodup ∧
    (∀ d, d ∈ (listKeys contents listErr).dirs ↔
      ∃ o, o ∈ contents ∧ ∃ s0 s1 rest,
        goSplitSlash o.key = s0 :: s1 :: rest ∧ d = s0 ++ "/" ++ s1) := by
  constructor
  · exact foldl_keysStep_nodup contents [] List.nodup_nil
  · intro d
    rw [show (listKeys contents listErr).dirs = contents.foldl keysStep []
      from rfl]
    rw [foldl_keysStep_mem]
    simp

/-- C7: the Go listKeys handler discards the error of its ListObjectsV2
call (resp, _ := ...), so on a listing failure — where the SDK yields an
output with no contents — it answers HTTP 200 with an empty dirs array
instead of surfacing a StoreUnavailable error; the response never depends
on the listing error at all.  This contradicts the specified error
handling and the error handling of every other handler of the program. -/
theorem listKeys_ignores_listing_error :
    listKeys [] (some "connection refused") =
      { status := 200, dirs := [] } ∧
    (∀ (contents : List S3Object) (e : String),
      listKeys contents (some e) = listKeys contents none) :=
  ⟨rfl, fun _ _ => rfl⟩

end SnapshotService
